import Mathlib

/-!
Verification of the vinculum corpus consolidation and alignment pipeline.

The Python sources are shallowly embedded: pure fragments become Lean
functions, filesystem effects become explicit action traces, and the
black-box collaborators (Bertalign, langdetect) become parameters.
Python strings are modelled by `String`, compared lexicographically by
code point via their underlying character lists, which coincides with
Python's string ordering.
-/

namespace Vinculum

/-! ## Python string primitives -/

/-- Python string `<=` : lexicographic on code points. -/
def pyStrLe (a b : String) : Prop := a.data ≤ b.data

/-- Python string `<` : lexicographic on code points. -/
def pyStrLt (a b : String) : Prop := a.data < b.data

instance : DecidableRel pyStrLe :=
fun a b => inferInstanceAs (Decidable (a.data ≤ b.data))

instance : DecidableRel pyStrLt :=
fun a b => inferInstanceAs (Decidable (a.data < b.data))

instance : IsTotal String pyStrLe :=
⟨fun a b => le_total a.data b.data⟩

instance : IsTrans String pyStrLe :=
⟨fun _ _ _ h1 h2 => le_trans h1 h2⟩

instance : IsRefl String pyStrLe :=
⟨fun a => le_refl a.data⟩

theorem string_data_inj {a b : String} (h : a.data = b.data) : a = b := by
cases a; cases b; exact congrArg String.mk h

instance : IsAntisymm String pyStrLe :=
⟨fun _ _ h1 h2 => string_data_inj (le_antisymm h1 h2)⟩

theorem pyStrLt_of_le_of_ne {a b : String} (h : pyStrLe a b) (hne : a ≠ b) :
    pyStrLt a b :=
lt_of_le_of_ne h (fun hd => hne (string_data_inj hd))

/-- Python `sorted` on a list of strings. -/
def sortStrings (l : List String) : List String :=
List.insertionSort pyStrLe l

theorem sortStrings_perm (l : List String) : (sortStrings l).Perm l :=
List.perm_insertionSort pyStrLe l

theorem sortStrings_sorted (l : List String) : (sortStrings l).Sorted pyStrLe :=
List.sorted_insertionSort pyStrLe l

theorem sortStrings_eq_of_perm {l1 l2 : List String} (h : l1.Perm l2) :
    sortStrings l1 = sortStrings l2 :=
List.eq_of_perm_of_sorted
  ((sortStrings_perm l1).trans (h.trans (sortStrings_perm l2).symm))
  (sortStrings_sorted l1) (sortStrings_sorted l2)

/-! ## LanguageResolver (`pipeline.py`, `_detect_languages_from_data`,
lines 152-210) -/

/-- `source_priority = ['en', 'it', 'de', 'fr']` (line 193). -/
def source_priority : List String := ["en", "it", "de", "fr"]

/-- Lines 192-203: first priority language present in the detected set,
else the lexicographically smallest detected code, else `'en'`. -/
def pickSourceLang (detected : List String) : String :=
match source_priority.find? (fun l => detected.contains l) with
| some l => l
| none =>
  match sortStrings detected with
  | [] => "en"
  | x :: _ => x

/-- Lines 192-210: resolve `(source_lang, target_langs)` from the set of
detected language codes (the set is represented as a duplicate-free list;
`sorted(detected_langs - {source_lang})` is set difference then sort). -/
def detect_languages (detected : List String) : String × List String :=
(pickSourceLang detected,
 sortStrings (detected.filter (fun l => l != pickSourceLang detected)))

/-- Lines 170-188: the observed language set is the set of `language`
fields present on the entries (each entry contributes `some code` or
`none`); set-ness is modelled by `dedup`. -/
def observedLanguages (entryLangs : List (Option String)) : List String :=
(entryLangs.filterMap id).dedup

/-- `_detect_languages_from_data` (lines 152-210).  The langdetect
fallback over text samples (lines 176-188) is a black box; its resulting
language set is the `fallbackLangs` parameter, consulted only when no
entry carries a `language` field.  No exception is ever raised: line 203
falls back to `'en'` when nothing at all was detected. -/
def detect_languages_from_data (fallbackLangs : List String)
    (entryLangs : List (Option String)) : String × List String :=
let detected := observedLanguages entryLangs
let detected := if detected.isEmpty then fallbackLangs.dedup else detected
detect_languages detected

theorem contains_eq_of_perm {l1 l2 : List String} (h : l1.Perm l2) (a : String) :
    l1.contains a = l2.contains a := by
rw [Bool.eq_iff_iff]
simp only [List.contains, List.elem_iff]
exact h.mem_iff

theorem detect_languages_eq_of_perm {l1 l2 : List String} (h : l1.Perm l2) :
    detect_languages l1 = detect_languages l2 := by
have hpick : pickSourceLang l1 = pickSourceLang l2 := by
  unfold pickSourceLang
  have hfun : (fun l => l1.contains l) = (fun l => l2.contains l) := by
    funext l; exact contains_eq_of_perm h l
  rw [hfun, sortStrings_eq_of_perm h]
unfold detect_languages
rw [hpick, sortStrings_eq_of_perm (h.filter _)]

theorem sortStrings_ne_nil {l : List String} (h : l ≠ []) : sortStrings l ≠ [] := by
intro hx
exact h (List.eq_nil_of_length_eq_zero
  ((sortStrings_perm l).symm.length_eq.trans (by rw [hx]; rfl)))

/-- C3: for every non-empty observed language set with no explicit
configuration, the resolver picks as source the first of en, it, de, fr
present, else the lexicographically smallest observed code; the targets
are the observed set minus the source, sorted ascending; the `{it,en,fr}`
scenario holds; and the result depends only on the observed set (it is
invariant under permutation of the observation order). -/
theorem language_resolution_priority (detected : List String)
    (hne : detected ≠ []) (hnd : detected.Nodup) :
    (∀ p, source_priority.find? (fun l => detected.contains l) = some p →
      (detect_languages detected).1 = p) ∧
    (source_priority.find? (fun l => detected.contains l) = none →
      (detect_languages detected).1 ∈ detected ∧
      ∀ y ∈ detected, pyStrLe (detect_languages detected).1 y) ∧
    (detect_languages detected).2.Sorted pyStrLt ∧
    (∀ x, x ∈ (detect_languages detected).2 ↔
      x ∈ detected ∧ x ≠ (detect_languages detected).1) ∧
    detect_languages ["it", "en", "fr"] = ("en", ["fr", "it"]) ∧
    ∀ l2, detected.Perm l2 → detect_languages l2 = detect_languages detected := by
refine ⟨?_, ?_, ?_, ?_, by decide, ?_⟩
· intro p hp
  show pickSourceLang detected = p
  unfold pickSourceLang
  rw [hp]
· intro hnone
  have hsne : sortStrings detected ≠ [] := sortStrings_ne_nil hne
  obtain ⟨x, xs, hxs⟩ := List.exists_cons_of_ne_nil hsne
  have hsrc : (detect_languages detected).1 = x := by
    show pickSourceLang detected = x
    unfold pickSourceLang
    rw [hnone, hxs]
  rw [hsrc]
  have hmem : x ∈ detected :=
    (sortStrings_perm detected).mem_iff.mp (hxs ▸ List.mem_cons_self x xs)
  refine ⟨hmem, fun y hy => ?_⟩
  have hy2 : y ∈ sortStrings detected := (sortStrings_perm detected).mem_iff.mpr hy
  rw [hxs] at hy2
  rcases List.mem_cons.mp hy2 with h | h
  · subst h
    show y.data ≤ y.data
    exact le_refl _
  · have hsorted := sortStrings_sorted detected
    rw [hxs] at hsorted
    exact List.rel_of_sorted_cons hsorted y h
· have hs := sortStrings_sorted (detected.filter
    (fun l => l != pickSourceLang detected))
  have hnd2 : (sortStrings (detected.filter
      (fun l => l != pickSourceLang detected))).Nodup :=
    (sortStrings_perm _).nodup_iff.mpr (hnd.filter _)
  exact (hs.and hnd2).imp (fun h => pyStrLt_of_le_of_ne h.1 h.2)
· intro x
  have hfst : (detect_languages detected).1 = pickSourceLang detected := rfl
  rw [hfst]
  show x ∈ sortStrings (detected.filter (fun l => l != pickSourceLang detected)) ↔ _
  rw [(sortStrings_perm _).mem_iff, List.mem_filter]
  simp [bne_iff_ne]
· intro l2 hp
  exact (detect_languages_eq_of_perm hp).symm

/-- C3 witness: the `{it, en, fr}` scenario, through the theorem. -/
theorem language_resolution_priority_witness :
    detect_languages ["it", "en", "fr"] = ("en", ["fr", "it"]) :=
(language_resolution_priority ["it", "en", "fr"] (by decide) (by decide)).2.2.2.2.1

/-- C6 counterexample: on a completely empty/unclassifiable corpus with no
configuration, language resolution does not fail at all — no
`NoLanguageDataError` exists anywhere in the code — it silently returns
the plan `("en", [])` (line 203 falls back to `'en'`). -/
theorem no_language_silent_fallback_cex :
    detect_languages_from_data [] [] = ("en", []) := by decide

/-- C6 amended: when no entry carries a language field and the langdetect
fallback also finds nothing, resolution silently yields the LanguagePlan
`("en", [])`; no error is raised. -/
theorem no_language_fallback_amended (fallbackLangs : List String)
    (entryLangs : List (Option String))
    (h1 : entryLangs.filterMap id = []) (h2 : fallbackLangs = []) :
    detect_languages_from_data fallbackLangs entryLangs = ("en", []) := by
subst h2
unfold detect_languages_from_data observedLanguages
rw [h1]
decide

/-- C6 amended witness: one unlabelled entry, empty fallback. -/
theorem no_language_fallback_amended_witness :
    detect_languages_from_data [] [(none : Option String)] = ("en", []) :=
no_language_fallback_amended [] [none] (by decide) rfl

/-! ## ChunkStore (`merge_md_to_jsonl.py`) -/

/-- Python regex `\w` over ASCII: letters, digits and underscore. -/
def isWordChar (c : Char) : Bool := c.isAlphanum || c == '_'

/-- The literal `_page_` of the filename pattern. -/
def pageLit : List Char := ['_', 'p', 'a', 'g', 'e', '_']

/-- Match `(\d+)\.md` at the front of `t` (trailing characters allowed,
since `re.match` does not anchor the end): the greedy digit run must be
non-empty and be followed by the literal `.md`. -/
def matchDigits (t : List Char) : Option String :=
let d := t.takeWhile Char.isDigit
if d.isEmpty then none
else if (t.drop d.length).take 3 = ['.', 'm', 'd'] then some (String.mk d)
else none

/-- Match `(\w+)_page_(\d+)\.md` at the front of `t` where the greedy
group `(\w+)` has length `k`, backtracking to shorter lengths on
failure, exactly as the regex engine does. -/
def tryWordLen (t : List Char) : Nat → Option (String × String)
| 0 => none
| k + 1 =>
  let rest := t.drop (k + 1)
  match (if rest.take 6 = pageLit then matchDigits (rest.drop 6) else none) with
  | some page => some (String.mk (t.take (k + 1)), page)
  | none => tryWordLen t k

/-- Match `(\w+)_page_(\d+)\.md` at the front of `t`, greedy in the
word group. -/
def matchTail (t : List Char) : Option (String × String) :=
tryWordLen t (t.takeWhile isWordChar).length

/-- The backtracking of the leading greedy `.*_`: try each underscore
position from right to left and match the tail after it. -/
def scanFromRight (s : List Char) : Nat → Option (String × String)
| 0 => none
| i + 1 =>
  if s.get? i = some '_' then
    match matchTail (s.drop (i + 1)) with
    | some r => some r
    | none => scanFromRight s i
  else scanFromRight s i

/-- `extract_language_and_page` (merge_md_to_jsonl.py lines 29-55):
`re.match(r".*_(\w+)_page_(\d+)\.md", filename)`, returning the two
captured groups; `none` models the raised-and-caught `ValueError`.
Filenames are assumed newline-free (`.` excludes newlines). -/
def extract_language_and_page (filename : String) : Option (String × String) :=
scanFromRight filename.data filename.data.length

/-- Python `line.rstrip('\n\r')`. -/
def rstripNewlines (s : String) : String :=
String.mk ((s.data.reverse.dropWhile (fun c => c == '\n' || c == '\r')).reverse)

/-- Python `s.strip()` (whitespace trimming on both sides, modelled over
the ASCII whitespace characters). -/
def pyStrip (s : String) : String :=
String.mk (((s.data.dropWhile Char.isWhitespace).reverse.dropWhile
  Char.isWhitespace).reverse)

/-- One markdown source file: its name and its lines (as read by Python
file iteration, so a line may still carry its trailing newline). -/
structure MdFile where
  name : String
  lines : List String

/-- One merged JSONL entry with the default metadata fields
(`process_md_files` lines 109-127, default `metadata_fields`). -/
structure ChunkEntry where
  text : String
  chunk_id : Nat
  language : String
  page : String
deriving DecidableEq

/-- Lines 100-127: process the lines of one file, threading the running
`chunk_id` counter; returns the entries and the final counter value. -/
def processLines (lang page : String) (cid : Nat) : List String → List ChunkEntry × Nat
| [] => ([], cid)
| line :: rest =>
  let text := rstripNewlines line
  if pyStrip text = "" then processLines lang page cid rest
  else
    let r := processLines lang page (cid + 1) rest
    (⟨text, cid, lang, page⟩ :: r.1, r.2)

/-- `process_md_files` (lines 58-133) over the already-collected, sorted
file list: a file whose name fails the pattern is skipped and its name
recorded as a warning; otherwise its lines are appended with the running
counter.  Returns (entries, warned file names). -/
def process_md_files (cid : Nat) : List MdFile → List ChunkEntry × List String
| [] => ([], [])
| f :: rest =>
  match extract_language_and_page f.name with
  | none =>
    let r := process_md_files cid rest
    (r.1, f.name :: r.2)
  | some lp =>
    let r1 := processLines lp.1 lp.2 cid f.lines
    let r2 := process_md_files r1.2 rest
    (r1.1 ++ r2.1, r2.2)

theorem processLines_spec (lang page : String) (ls : List String) :
    ∀ cid : Nat,
    (processLines lang page cid ls).1.map (fun e => e.chunk_id) =
      List.range' cid (processLines lang page cid ls).1.length ∧
    (processLines lang page cid ls).2 =
      cid + (processLines lang page cid ls).1.length ∧
    ∀ e ∈ (processLines lang page cid ls).1, pyStrip e.text ≠ "" := by
induction ls with
| nil => intro cid; simp [processLines]
| cons line rest ih =>
  intro cid
  by_cases h : pyStrip (rstripNewlines line) = ""
  · simpa only [processLines, if_pos h] using ih cid
  · obtain ⟨ih1, ih2, ih3⟩ := ih (cid + 1)
    simp only [processLines, if_neg h, List.map_cons, List.length_cons]
    refine ⟨?_, by omega, ?_⟩
    · rw [ih1, List.range'_succ]
    · intro e he
      rcases List.mem_cons.mp he with rfl | he2
      · exact h
      · exact ih3 e he2

theorem process_md_files_spec (files : List MdFile) :
    ∀ cid : Nat,
    (process_md_files cid files).1.map (fun e => e.chunk_id) =
      List.range' cid (process_md_files cid files).1.length ∧
    ∀ e ∈ (process_md_files cid files).1, pyStrip e.text ≠ "" := by
induction files with
| nil => intro cid; simp [process_md_files]
| cons f rest ih =>
  intro cid
  match hx : extract_language_and_page f.name with
  | none => simpa only [process_md_files, hx] using ih cid
  | some lp =>
    obtain ⟨hl1, hl2, hl3⟩ := processLines_spec lp.1 lp.2 f.lines cid
    obtain ⟨ih1, ih2⟩ := ih (processLines lp.1 lp.2 cid f.lines).2
    simp only [process_md_files, hx, List.map_append, List.length_append]
    constructor
    · rw [ih1, hl1, hl2, List.range'_append_1, Nat.add_comm]
    · intro e he
      rcases List.mem_append.mp he with he1 | he2
      · exact hl3 e he1
      · exact ih2 e he2

theorem process_md_files_skip (f : MdFile)
    (hf : extract_language_and_page f.name = none) :
    ∀ (pre : List MdFile) (post : List MdFile) (cid : Nat),
    (process_md_files cid (pre ++ f :: post)).1 =
      (process_md_files cid (pre ++ post)).1 ∧
    f.name ∈ (process_md_files cid (pre ++ f :: post)).2 := by
intro pre
induction pre with
| nil =>
  intro post cid
  simp [process_md_files, hf]
| cons g rest ih =>
  intro post cid
  match hx : extract_language_and_page g.name with
  | none =>
    obtain ⟨h1, h2⟩ := ih post cid
    simp only [List.cons_append, process_md_files, hx]
    exact ⟨h1, List.mem_cons_of_mem _ h2⟩
  | some lp =>
    obtain ⟨h1, h2⟩ := ih post (processLines lp.1 lp.2 cid g.lines).2
    simp only [List.cons_append, process_md_files, hx, List.append_eq]
    exact ⟨by rw [h1], h2⟩

/-- C9: for every merge run, the `chunk_id` values over the emitted
entries form the dense sequence 0,1,2,... with no gaps or repeats (one
running counter across all files); every emitted entry's text is
non-empty after trimming; and a file whose name does not match the
filename pattern contributes nothing (the merge over the other files is
unchanged) while its name is recorded with a warning — the merge never
aborts. -/
theorem merge_chunk_ids_dense (files : List MdFile) :
    (process_md_files 0 files).1.map (fun e => e.chunk_id) =
      List.range (process_md_files 0 files).1.length ∧
    (∀ e ∈ (process_md_files 0 files).1, pyStrip e.text ≠ "") ∧
    ∀ (pre post : List MdFile) (f : MdFile) (cid : Nat),
      extract_language_and_page f.name = none →
      (process_md_files cid (pre ++ f :: post)).1 =
        (process_md_files cid (pre ++ post)).1 ∧
      f.name ∈ (process_md_files cid (pre ++ f :: post)).2 := by
obtain ⟨h1, h2⟩ := process_md_files_spec files 0
refine ⟨by rw [h1, List.range_eq_range'], h2, ?_⟩
intro pre post f cid hf
exact process_md_files_skip f hf pre post cid

/-- C9 witness: a non-matching file (`README.md`) ahead of a matching one
is skipped with a warning and leaves the emitted entries unchanged. -/
theorem merge_chunk_ids_dense_witness :
    (process_md_files 0
        ([] ++ (⟨"README.md", ["x"]⟩ : MdFile) ::
          [⟨"doc_en_page_1.md", ["hi"]⟩])).1 =
      (process_md_files 0 ([] ++ [⟨"doc_en_page_1.md", ["hi"]⟩])).1 ∧
    "README.md" ∈ (process_md_files 0
        ([] ++ (⟨"README.md", ["x"]⟩ : MdFile) ::
          [⟨"doc_en_page_1.md", ["hi"]⟩])).2 :=
(merge_chunk_ids_dense []).2.2 [] [⟨"doc_en_page_1.md", ["hi"]⟩]
  ⟨"README.md", ["x"]⟩ 0 (by decide)

/-! ## AlignmentRecordBuilder (`pipeline.py`, `run_bert_alignment`,
lines 337-417) -/

/-- One JSONL corpus entry as consumed by the aligner; only the fields
the alignment code touches are modelled. -/
structure Chunk where
  text : String
  chunk_id : Nat
deriving DecidableEq

/-- Python slice `l[a : b]` for natural bounds. -/
def pySlice (l : List α) (a b : Nat) : List α := (l.drop a).take (b - a)

/-- Python `bead[0]`; only used when the bead is non-empty. -/
def firstIdx : List Nat → Nat
| [] => 0
| x :: _ => x

/-- Python `bead[-1]`; only used when the bead is non-empty. -/
def lastIdx : List Nat → Nat
| [] => 0
| [x] => x
| _ :: x :: xs => lastIdx (x :: xs)

/-- Python `' '.join(l)`. -/
def joinSpace (l : List String) : String := String.intercalate " " l

/-- One element of `aligned_pairs` (lines 354-381): the joined texts, the
chunk slices for each side, and the raw bead. -/
structure AlignedPair where
  src_sent : String
  tgt_sent : String
  sent : List Chunk
  tent : List Chunk
  src_bead : List Nat
  tgt_bead : List Nat
deriving DecidableEq

/-- Lines 339-381: expand one bead into an `aligned_pairs` element.  The
branching mirrors the Python `if src_bead and tgt_bead / elif src_bead /
elif tgt_bead / else` structure. -/
def mkAlignedPair (srcSents tgtSents : List String)
    (srcEntries tgtEntries : List Chunk) (bead : List Nat × List Nat) :
    AlignedPair :=
let sb := bead.1
let tb := bead.2
let src_sent :=
  if sb.length > 0 then
    joinSpace (pySlice srcSents (firstIdx sb) (lastIdx sb + 1))
  else ""
let tgt_sent :=
  if tb.length > 0 then
    joinSpace (pySlice tgtSents (firstIdx tb) (lastIdx tb + 1))
  else ""
if sb ≠ [] ∧ tb ≠ [] then
  ⟨src_sent, tgt_sent, pySlice srcEntries (firstIdx sb) (lastIdx sb + 1),
   pySlice tgtEntries (firstIdx tb) (lastIdx tb + 1), sb, tb⟩
else if sb ≠ [] then
  ⟨src_sent, tgt_sent, pySlice srcEntries (firstIdx sb) (lastIdx sb + 1),
   [], sb, tb⟩
else if tb ≠ [] then
  ⟨src_sent, tgt_sent, [],
   pySlice tgtEntries (firstIdx tb) (lastIdx tb + 1), sb, tb⟩
else
  ⟨src_sent, tgt_sent, [], [], sb, tb⟩

/-- A JSON value, for the `validation` field of a persisted record. -/
inductive JVal where
| null : JVal
| bool : Bool → JVal
| num : Nat → JVal
| str : String → JVal
| obj : List (String × JVal) → JVal

theorem JVal.obj_ne_null (l : List (String × JVal)) : JVal.obj l ≠ JVal.null :=
fun h => JVal.noConfusion h

/-- Lines 388-395: the synthetic payload attached when `fake_validation`
is configured (`confidence: 1.0` is modelled as the number 1). -/
def fake_validation_payload : List (String × JVal) :=
[("is_valid_alignment", JVal.bool true), ("confidence", JVal.num 1),
 ("reason", JVal.str "test"), ("validation_success", JVal.bool true),
 ("error", JVal.null)]

/-- Lines 387-395: `validation = {}`, replaced by the synthetic payload
when `fake_validation` is true.  The persisted record always carries the
key `validation`, holding this (possibly empty) object. -/
def mkValidation (fake_validation : Bool) : JVal :=
JVal.obj (if fake_validation then fake_validation_payload else [])

/-- A persisted alignment record (lines 405-416). -/
structure AlignmentRecord where
  alignment_id : Nat
  pair_id : Nat
  src_text : String
  tgt_text : String
  src_lang : String
  tgt_lang : String
  alignment_type : String
  src_chunks : List Chunk
  tgt_chunks : List Chunk
  validation : JVal

/-- Line 403: `alignment_type_counts.get(t, 0) + 1` written back, with
Python-dict update semantics (first occurrence updated, insertion order
preserved). -/
def bumpCount : List (String × Nat) → String → List (String × Nat)
| [], k => [(k, 1)]
| (k', v) :: rest, k =>
  if k' = k then (k', v + 1) :: rest else (k', v) :: bumpCount rest k

/-- The `keep_all_alignments or (sent and tent)` filter of line 401
(Python truthiness of a list is non-emptiness). -/
def keepPair (keep_all_alignments : Bool) (p : AlignedPair) : Bool :=
keep_all_alignments || (!p.sent.isEmpty && !p.tent.isEmpty)

/-- Line 402: `f"{len(src_bead)}-{len(tgt_bead)}"`. -/
def alignmentType (p : AlignedPair) : String :=
toString p.src_bead.length ++ "-" ++ toString p.tgt_bead.length

/-- The `alignment_entry` dict literal of lines 405-416: `aid` is
`len(all_alignments)` at append time, `pid` the enumerate counter. -/
def mkRecord (src_lang tgt_lang : String) (validation : JVal)
    (aid pid : Nat) (p : AlignedPair) : AlignmentRecord :=
⟨aid, pid, p.src_sent, p.tgt_sent, src_lang, tgt_lang, alignmentType p,
 p.sent, p.tent, validation⟩

/-- Lines 399-417: the loop over `enumerate(aligned_pairs)`.  `i` is the
enumerate counter, `acc` the `all_alignments` list built so far, `counts`
the running `alignment_type_counts`. -/
def buildLoop (src_lang tgt_lang : String) (keep_all : Bool)
    (validation : JVal) (i : Nat) (acc : List AlignmentRecord)
    (counts : List (String × Nat)) :
    List AlignedPair → List AlignmentRecord × List (String × Nat)
| [] => (acc, counts)
| p :: rest =>
  if keepPair keep_all p then
    buildLoop src_lang tgt_lang keep_all validation (i + 1)
      (acc ++ [mkRecord src_lang tgt_lang validation acc.length i p])
      (bumpCount counts (alignmentType p)) rest
  else
    buildLoop src_lang tgt_lang keep_all validation (i + 1) acc counts rest

/-- Lines 386-417: build `all_alignments` and `alignment_type_counts`
for one language pair from the already-expanded `aligned_pairs`. -/
def buildAlignments (src_lang tgt_lang : String)
    (keep_all fake_validation : Bool) (pairs : List AlignedPair) :
    List AlignmentRecord × List (String × Nat) :=
buildLoop src_lang tgt_lang keep_all (mkValidation fake_validation)
  0 [] [] pairs

/-- The indices (enumerate counters) and pairs that pass the keep
filter, starting at counter `i`: a specification-side companion of
`buildLoop`. -/
def keptWithIds (keep_all : Bool) : Nat → List AlignedPair → List (Nat × AlignedPair)
| _, [] => []
| i, p :: rest =>
  if keepPair keep_all p then (i, p) :: keptWithIds keep_all (i + 1) rest
  else keptWithIds keep_all (i + 1) rest

/-- Total of an `alignment_type_counts` dictionary. -/
def countsSum (c : List (String × Nat)) : Nat := (c.map Prod.snd).sum

theorem bumpCount_sum (k : String) :
    ∀ c : List (String × Nat), countsSum (bumpCount c k) = countsSum c + 1 := by
intro c
induction c with
| nil => rfl
| cons kv rest ih =>
  obtain ⟨k', v⟩ := kv
  by_cases h : k' = k
  · simp only [bumpCount, if_pos h, countsSum, List.map_cons, List.sum_cons]
    omega
  · simp only [bumpCount, if_neg h, countsSum, List.map_cons, List.sum_cons]
    simp only [countsSum] at ih
    omega

theorem buildLoop_spec (src_lang tgt_lang : String) (keep_all : Bool) (v : JVal)
    (pairs : List AlignedPair) :
    ∀ (i : Nat) (acc : List AlignmentRecord) (counts : List (String × Nat)),
    buildLoop src_lang tgt_lang keep_all v i acc counts pairs =
      (acc ++ (List.enumFrom acc.length (keptWithIds keep_all i pairs)).map
        (fun q => mkRecord src_lang tgt_lang v q.1 q.2.1 q.2.2),
       (keptWithIds keep_all i pairs).foldl
         (fun c q => bumpCount c (alignmentType q.2)) counts) := by
induction pairs with
| nil => intro i acc counts; simp [buildLoop, keptWithIds]
| cons p rest ih =>
  intro i acc counts
  by_cases h : keepPair keep_all p
  · rw [show buildLoop src_lang tgt_lang keep_all v i acc counts (p :: rest) =
        buildLoop src_lang tgt_lang keep_all v (i + 1)
          (acc ++ [mkRecord src_lang tgt_lang v acc.length i p])
          (bumpCount counts (alignmentType p)) rest by
      simp [buildLoop, h]]
    rw [ih]
    simp only [keptWithIds, if_pos h, List.enumFrom, List.map_cons,
      List.foldl_cons, List.length_append, List.length_cons,
      List.length_nil]
    rw [List.append_assoc]
    rfl
  · rw [show buildLoop src_lang tgt_lang keep_all v i acc counts (p :: rest) =
        buildLoop src_lang tgt_lang keep_all v (i + 1) acc counts rest by
      simp [buildLoop, h]]
    rw [ih]
    simp [keptWithIds, if_neg h]

theorem keptWithIds_fst_sublist (keep_all : Bool) (pairs : List AlignedPair) :
    ∀ i : Nat,
    ((keptWithIds keep_all i pairs).map Prod.fst).Sublist (List.range' i pairs.length) := by
induction pairs with
| nil => intro i; simp [keptWithIds]
| cons p rest ih =>
  intro i
  rw [show (p :: rest).length = rest.length + 1 from rfl, List.range'_succ]
  by_cases h : keepPair keep_all p
  · simpa [keptWithIds, if_pos h] using (ih (i + 1)).cons₂ i
  · simpa [keptWithIds, if_neg h] using (ih (i + 1)).cons i

theorem keptWithIds_fst_all_true (pairs : List AlignedPair) :
    ∀ i : Nat, (keptWithIds true i pairs).map Prod.fst = List.range' i pairs.length := by
induction pairs with
| nil => intro i; simp [keptWithIds]
| cons p rest ih =>
  intro i
  have h : keepPair true p = true := rfl
  simp only [keptWithIds, if_pos h, List.map_cons, List.length_cons,
    List.range'_succ]
  rw [ih (i + 1)]

theorem keptWithIds_fst_ge (keep_all : Bool) (pairs : List AlignedPair) :
    ∀ (i : Nat), ∀ q ∈ keptWithIds keep_all i pairs, i ≤ q.1 := by
induction pairs with
| nil => intro i q hq; simp [keptWithIds] at hq
| cons p rest ih =>
  intro i q hq
  by_cases h : keepPair keep_all p
  · rw [keptWithIds, if_pos h] at hq
    rcases List.mem_cons.mp hq with rfl | hq2
    · exact Nat.le_refl i
    · exact Nat.le_of_succ_le (ih (i + 1) q hq2)
  · rw [keptWithIds, if_neg h] at hq
    exact Nat.le_of_succ_le (ih (i + 1) q hq)

theorem keptWithIds_mem_iff (keep_all : Bool) (pairs : List AlignedPair) :
    ∀ (i j : Nat),
    ((i + j) ∈ (keptWithIds keep_all i pairs).map Prod.fst) ↔
      ∃ h : j < pairs.length, keepPair keep_all (pairs.get ⟨j, h⟩) = true := by
induction pairs with
| nil =>
  intro i j
  simp [keptWithIds]
| cons p rest ih =>
  intro i j
  cases j with
  | zero =>
    by_cases h : keepPair keep_all p
    · simp [keptWithIds, if_pos h, List.get, h]
    · rw [keptWithIds, if_neg h]
      constructor
      · intro hmem
        obtain ⟨q, hq, hq1⟩ := List.mem_map.mp hmem
        have := keptWithIds_fst_ge keep_all rest (i + 1) q hq
        omega
      · intro ⟨_, hk⟩
        exact absurd hk (by simpa [List.get] using h)
  | succ j =>
    have harith : i + (j + 1) = (i + 1) + j := by omega
    by_cases h : keepPair keep_all p
    · rw [keptWithIds, if_pos h]
      rw [List.map_cons, List.mem_cons]
      constructor
      · intro hc
        rcases hc with he | hmem
        · omega
        · obtain ⟨hlt, hk⟩ := (harith ▸ ih (i + 1) j).mp hmem
          exact ⟨Nat.succ_lt_succ hlt, hk⟩
      · intro ⟨hlt, hk⟩
        right
        exact (harith ▸ ih (i + 1) j).mpr ⟨Nat.lt_of_succ_lt_succ hlt, hk⟩
    · rw [keptWithIds, if_neg h]
      rw [harith, ih (i + 1) j]
      constructor
      · intro ⟨hlt, hk⟩
        exact ⟨Nat.succ_lt_succ hlt, hk⟩
      · intro ⟨hlt, hk⟩
        exact ⟨Nat.lt_of_succ_lt_succ hlt, hk⟩

theorem countsSum_foldl (l : List (Nat × AlignedPair)) :
    ∀ counts : List (String × Nat),
    countsSum (l.foldl (fun c q => bumpCount c (alignmentType q.2)) counts) =
      countsSum counts + l.length := by
induction l with
| nil => intro counts; simp
| cons q rest ih =>
  intro counts
  rw [List.foldl_cons, ih, bumpCount_sum, List.length_cons]
  omega

theorem buildAlignments_eq (src_lang tgt_lang : String)
    (keep_all fake : Bool) (pairs : List AlignedPair) :
    buildAlignments src_lang tgt_lang keep_all fake pairs =
      ((List.enumFrom 0 (keptWithIds keep_all 0 pairs)).map
        (fun q => mkRecord src_lang tgt_lang (mkValidation fake) q.1 q.2.1 q.2.2),
       (keptWithIds keep_all 0 pairs).foldl
         (fun c q => bumpCount c (alignmentType q.2)) []) := by
unfold buildAlignments
rw [buildLoop_spec]
rfl

theorem buildAlignments_map_pair_id (src_lang tgt_lang : String)
    (keep_all fake : Bool) (pairs : List AlignedPair) :
    (buildAlignments src_lang tgt_lang keep_all fake pairs).1.map
        (fun r => r.pair_id) =
      (keptWithIds keep_all 0 pairs).map Prod.fst := by
rw [buildAlignments_eq]
rw [List.map_map]
have : ((fun r : AlignmentRecord => r.pair_id) ∘
    (fun q : Nat × (Nat × AlignedPair) =>
      mkRecord src_lang tgt_lang (mkValidation fake) q.1 q.2.1 q.2.2)) =
    (fun q : Nat × (Nat × AlignedPair) => q.2.1) := rfl
rw [this]
have h2 : (fun q : Nat × (Nat × AlignedPair) => q.2.1) =
    (Prod.fst ∘ Prod.snd : Nat × (Nat × AlignedPair) → Nat) := rfl
rw [h2, ← List.map_map, List.enumFrom_map_snd]

/-- The aligner's contract (spec §3, Bead): bead indices are positions
into the corresponding entry stream, so a non-empty bead has its first
index at most its last and its last index in range. -/
def ValidBead (entries : List Chunk) (b : List Nat) : Prop :=
b ≠ [] → firstIdx b ≤ lastIdx b ∧ lastIdx b < entries.length

instance (entries : List Chunk) (b : List Nat) : Decidable (ValidBead entries b) := by
unfold ValidBead
infer_instance

theorem pySlice_ne_nil {l : List Chunk} {a b : Nat} (h1 : a ≤ b)
    (h2 : b < l.length) : pySlice l a (b + 1) ≠ [] := by
intro hx
have hlen := congrArg List.length hx
rw [pySlice, List.length_take, List.length_drop] at hlen
simp only [List.length_nil] at hlen
omega

theorem keepPair_mkAlignedPair (srcSents tgtSents : List String)
    (srcEntries tgtEntries : List Chunk) (keep_all : Bool)
    (b : List Nat × List Nat) (hsrc : ValidBead srcEntries b.1)
    (htgt : ValidBead tgtEntries b.2) :
    keepPair keep_all (mkAlignedPair srcSents tgtSents srcEntries tgtEntries b) =
      (keep_all || (!b.1.isEmpty && !b.2.isEmpty)) := by
by_cases h1 : b.1 = [] <;> by_cases h2 : b.2 = []
· simp [mkAlignedPair, h1, h2, keepPair]
· simp [mkAlignedPair, h1, h2, keepPair]
· simp [mkAlignedPair, h1, h2, keepPair]
· obtain ⟨hs1, hs2⟩ := hsrc h1
  obtain ⟨ht1, ht2⟩ := htgt h2
  have hns := List.isEmpty_eq_false.mpr (pySlice_ne_nil hs1 hs2)
  have hnt := List.isEmpty_eq_false.mpr (pySlice_ne_nil ht1 ht2)
  have hb1 := List.isEmpty_eq_false.mpr h1
  have hb2 := List.isEmpty_eq_false.mpr h2
  simp [mkAlignedPair, h1, h2, keepPair, hns, hnt, hb1, hb2]

/-- The spec scenario bead `([0,1],[])` expanded over two source chunks
(`aligned_pairs` construction, lines 339-381). -/
def samplePair20 : AlignedPair :=
mkAlignedPair ["Hello", "World"] [] [⟨"Hello", 0⟩, ⟨"World", 1⟩] [] ([0, 1], [])

/-- The spec scenario bead `([0],[0])`, a 1-1 pair. -/
def samplePair11 : AlignedPair :=
mkAlignedPair ["Hello"] ["Ciao"] [⟨"Hello", 0⟩] [⟨"Ciao", 1⟩] ([0], [0])

/-- C1: a bead's record is kept (appears among the persisted records,
identified by its `pair_id`) iff `keep_all_alignments` is true or both
of the bead's index ranges are non-empty (under the aligner contract
that bead indices are in range); in particular the bead `([0,1],[])` is
dropped when the flag is false, and kept with `alignment_type = "2-0"`,
empty `tgt_text` and empty `tgt_chunks` when the flag is true. -/
theorem bead_filtering_policy (srcSents tgtSents : List String)
    (srcEntries tgtEntries : List Chunk) (src_lang tgt_lang : String)
    (keep_all fake : Bool) (beads : List (List Nat × List Nat))
    (hvalid : ∀ b ∈ beads, ValidBead srcEntries b.1 ∧ ValidBead tgtEntries b.2) :
    (∀ j (hj : j < beads.length),
      ((∃ r ∈ (buildAlignments src_lang tgt_lang keep_all fake
          (beads.map (mkAlignedPair srcSents tgtSents srcEntries tgtEntries))).1,
        r.pair_id = j) ↔
      (keep_all = true ∨
        ((beads.get ⟨j, hj⟩).1 ≠ [] ∧ (beads.get ⟨j, hj⟩).2 ≠ [])))) ∧
    (buildAlignments "en" "it" false false [samplePair20]).1 = [] ∧
    (∃ rec, (buildAlignments "en" "it" true false [samplePair20]).1 = [rec] ∧
      rec.alignment_type = "2-0" ∧ rec.tgt_text = "" ∧ rec.tgt_chunks = []) := by
refine ⟨?_, rfl, ⟨_, rfl, rfl, rfl, rfl⟩⟩
intro j hj
have hmap : (∃ r ∈ (buildAlignments src_lang tgt_lang keep_all fake
      (beads.map (mkAlignedPair srcSents tgtSents srcEntries tgtEntries))).1,
    r.pair_id = j) ↔
    j ∈ (buildAlignments src_lang tgt_lang keep_all fake
      (beads.map (mkAlignedPair srcSents tgtSents srcEntries tgtEntries))).1.map
        (fun r => r.pair_id) := List.mem_map.symm
rw [hmap, buildAlignments_map_pair_id]
have hj2 : j < (beads.map
    (mkAlignedPair srcSents tgtSents srcEntries tgtEntries)).length := by
  simpa using hj
have hmem := keptWithIds_mem_iff keep_all
  (beads.map (mkAlignedPair srcSents tgtSents srcEntries tgtEntries)) 0 j
rw [Nat.zero_add] at hmem
rw [hmem]
have hget : (beads.map (mkAlignedPair srcSents tgtSents srcEntries tgtEntries)).get
    ⟨j, hj2⟩ = mkAlignedPair srcSents tgtSents srcEntries tgtEntries
      (beads.get ⟨j, hj⟩) := List.get_map _
have hbv := hvalid (beads.get ⟨j, hj⟩) (beads.get_mem _ _)
constructor
· intro ⟨h, hk⟩
  rw [show (⟨j, h⟩ : Fin _) = ⟨j, hj2⟩ from rfl, hget,
    keepPair_mkAlignedPair _ _ _ _ _ _ hbv.1 hbv.2] at hk
  simpa [List.isEmpty_iff] using hk
· intro hor
  refine ⟨hj2, ?_⟩
  rw [hget, keepPair_mkAlignedPair _ _ _ _ _ _ hbv.1 hbv.2]
  simpa [List.isEmpty_iff] using hor

/-- C1 witness: the `([0,1],[])` scenario with the flag off, through the
theorem (the bead is valid for the two source chunks). -/
theorem bead_filtering_policy_witness :
    (buildAlignments "en" "it" false false [samplePair20]).1 = [] :=
(bead_filtering_policy ["Hello", "World"] [] [⟨"Hello", 0⟩, ⟨"World", 1⟩] []
  "en" "it" false false [([0, 1], [])] (by decide)).2.1

/-- C2: over one language pair run, `alignment_id` over the kept records
is the dense sequence 0,1,2,...; `pair_id` values are the enumerate
indices of the beads (a strictly increasing subsequence of 0..n-1, and
exactly 0..n-1 when every bead is kept, as when the keep-all flag is
set); and the number of kept records equals the sum of the persisted
`alignment_type` distribution counts. -/
theorem alignment_ids_dense (src_lang tgt_lang : String) (keep_all fake : Bool)
    (pairs : List AlignedPair) :
    ((buildAlignments src_lang tgt_lang keep_all fake pairs).1.map
        (fun r => r.alignment_id) =
      List.range (buildAlignments src_lang tgt_lang keep_all fake pairs).1.length) ∧
    ((buildAlignments src_lang tgt_lang keep_all fake pairs).1.map
        (fun r => r.pair_id)).Sublist (List.range pairs.length) ∧
    ((buildAlignments src_lang tgt_lang true fake pairs).1.map
        (fun r => r.pair_id) = List.range pairs.length) ∧
    countsSum (buildAlignments src_lang tgt_lang keep_all fake pairs).2 =
      (buildAlignments src_lang tgt_lang keep_all fake pairs).1.length := by
refine ⟨?_, ?_, ?_, ?_⟩
· rw [buildAlignments_eq]
  simp only [List.map_map, List.length_map]
  have : ((fun r : AlignmentRecord => r.alignment_id) ∘
      (fun q : Nat × (Nat × AlignedPair) =>
        mkRecord src_lang tgt_lang (mkValidation fake) q.1 q.2.1 q.2.2)) =
      (Prod.fst : Nat × (Nat × AlignedPair) → Nat) := rfl
  rw [this, List.enumFrom_map_fst, List.enumFrom_length,
    List.range_eq_range']
· rw [buildAlignments_map_pair_id, List.range_eq_range']
  exact keptWithIds_fst_sublist keep_all pairs 0
· rw [buildAlignments_map_pair_id, List.range_eq_range']
  exact keptWithIds_fst_all_true pairs 0
· rw [buildAlignments_eq]
  simp only [countsSum_foldl, List.length_map, List.enumFrom_length]
  simp [countsSum]

/-- C7 counterexample: with no enrichment policy active
(`fake_validation = false`), the persisted record's `validation` field is
not absent and not null — the dict literal of lines 405-416 always
includes the key, holding the empty object `{}` (line 387). -/
theorem validation_empty_object_cex :
    ((buildAlignments "en" "it" false false [samplePair11]).1.map
        (fun r => r.validation)) = [JVal.obj []] ∧
    JVal.obj [] ≠ JVal.null :=
⟨rfl, JVal.obj_ne_null []⟩

/-- C7 amended: every persisted record carries a `validation` field; it
holds the empty object unless `fake_validation` is configured, in which
case it holds the synthetic pass-through payload. -/
theorem validation_field_amended (src_lang tgt_lang : String)
    (keep_all fake : Bool) (pairs : List AlignedPair) :
    (∀ r ∈ (buildAlignments src_lang tgt_lang keep_all fake pairs).1,
      r.validation = mkValidation fake) ∧
    mkValidation false = JVal.obj [] ∧
    mkValidation true = JVal.obj fake_validation_payload := by
refine ⟨?_, rfl, rfl⟩
intro r hr
rw [buildAlignments_eq] at hr
obtain ⟨q, _, hq⟩ := List.mem_map.mp hr
rw [← hq]
rfl

/-- The single record built for `samplePair11` with the pass-through
policy active. -/
def sampleRecordFake : AlignmentRecord :=
mkRecord "en" "it" (mkValidation true) 0 0 samplePair11

/-- C7 amended witness: the concrete record built with
`fake_validation = true` carries the synthetic payload. -/
theorem validation_field_amended_witness :
    sampleRecordFake.validation = mkValidation true :=
(validation_field_amended "en" "it" false true [samplePair11]).1 sampleRecordFake
  (by rw [show (buildAlignments "en" "it" false true [samplePair11]).1 =
        [sampleRecordFake] from rfl]
      exact List.mem_singleton_self _)

/-! ## AlignmentAdapter pair loop (`run_bert_alignment`, lines 290-310) -/

/-- Lines 290-310: the guard on the source side and the per-target loop.
`doPair` abstracts the whole body processing one non-empty target
(lines 312-456); `β` is its result.  Returns the stage's boolean result
and the processed pairs: an empty source entry list makes the stage
return `False` before any pair is processed (lines 294-296); an empty
target entry list skips just that pair with a warning (lines 308-310). -/
def processLanguagePairs (srcEntries : List Chunk)
    (tgts : List (String × List Chunk)) (doPair : String → List Chunk → β) :
    Bool × List β :=
if srcEntries.isEmpty then (false, [])
else
  (true, tgts.filterMap (fun t => if t.2.isEmpty then none else some (doPair t.1 t.2)))

/-- C4 counterexample: when the source side has zero chunks, the
alignment stage does not skip-and-continue — it fails the whole run
(returns `False`, line 296) before any pair is processed, contrary to
the claim that an empty side is only a per-pair, non-fatal skip.  Here
the one requested pair has a non-empty target. -/
theorem empty_source_fatal_cex :
    processLanguagePairs [] [("it", [⟨"Ciao", 0⟩])] (fun lt _ => lt) =
      (false, []) := rfl

/-- C4 amended: if the source side is non-empty the stage reports
success; a pair whose target side has zero chunks is skipped
(contributes nothing), non-fatally; pairs with non-empty targets are
processed in order; but an empty source side fails the whole stage. -/
theorem alignment_pair_skip_amended (srcEntries : List Chunk)
    (tgts : List (String × List Chunk)) (doPair : String → List Chunk → β)
    (hsrc : srcEntries ≠ []) :
    (processLanguagePairs srcEntries tgts doPair).1 = true ∧
    (processLanguagePairs srcEntries tgts doPair).2 =
      tgts.filterMap (fun t => if t.2.isEmpty then none else some (doPair t.1 t.2)) ∧
    ∀ tgts2 : List (String × List Chunk),
      processLanguagePairs [] tgts2 doPair = (false, []) := by
rw [processLanguagePairs, if_neg (by simp [List.isEmpty_eq_false.mpr hsrc])]
exact ⟨rfl, rfl, fun tgts2 => rfl⟩

/-- C4 amended witness: one empty-target pair is skipped while a
non-empty one is processed, and the stage succeeds. -/
theorem alignment_pair_skip_amended_witness :
    (processLanguagePairs [⟨"Hello", 0⟩] [("it", []), ("de", [⟨"Hallo", 1⟩])]
      (fun lt _ => lt)).1 = true ∧
    (processLanguagePairs [⟨"Hello", 0⟩] [("it", []), ("de", [⟨"Hallo", 1⟩])]
      (fun lt _ => lt)).2 =
      [("it", ([] : List Chunk)), ("de", [⟨"Hallo", 1⟩])].filterMap
        (fun t => if t.2.isEmpty then none else some ((fun lt _ => lt) t.1 t.2)) ∧
    ∀ tgts2 : List (String × List Chunk),
      processLanguagePairs [] tgts2 (fun lt (_ : List Chunk) => lt) = (false, []) :=
alignment_pair_skip_amended [⟨"Hello", 0⟩] [("it", []), ("de", [⟨"Hallo", 1⟩])]
  (fun lt _ => lt) (by decide)

/-! ## Consolidator (`apply_production_mode`, lines 468-553) -/

/-- One filesystem effect of `apply_production_mode`, in program order. -/
inductive ConsAction where
| copyChunks : ConsAction
| copyAligned : String → ConsAction
| removeExperimentsDir : ConsAction
| removeSubdir : String → ConsAction
| warnNoLanguage : ConsAction
deriving DecidableEq

/-- The state `apply_production_mode` reads: which files/directories
exist and which instance attributes the alignment stage left behind.
`hasLastExperimentDir` models `hasattr(self, 'last_experiment_dir')`,
`detectedSrc` models `getattr(self, 'detected_language_src', None)`. -/
structure ConsInput where
  sourceDataFileExists : Bool
  hasLastExperimentDir : Bool
  lastExperimentDirExists : Bool
  detectedSrc : Option String
  detectedTgt : List String
  alignedFileFound : String → Bool
  experimentsDirExists : Bool
  outputSubdirs : List String

/-- Step 1 (lines 498-505): copy the merged chunk file if present. -/
def consStep1 (st : ConsInput) : List ConsAction :=
if st.sourceDataFileExists then [ConsAction.copyChunks] else []

/-- Step 2 body (lines 517-529): copy each pair's aligned file when the
glob finds one. -/
def consStep2 (st : ConsInput) : List ConsAction :=
st.detectedTgt.filterMap
  (fun t => if st.alignedFileFound t then some (ConsAction.copyAligned t) else none)

/-- Step 3 (lines 531-535): remove the experiments directory tree. -/
def consStep3 (st : ConsInput) : List ConsAction :=
if st.experimentsDirExists then [ConsAction.removeExperimentsDir] else []

/-- Step 4 (lines 537-543): remove every subdirectory of the output
directory. -/
def consStep4 (st : ConsInput) : List ConsAction :=
st.outputSubdirs.map ConsAction.removeSubdir

/-- `apply_production_mode` (lines 468-553), modelled as the boolean
result plus the trace of filesystem effects; the filesystem primitives
themselves are assumed not to throw.  Note the early `return True` of
lines 513-515: when `last_experiment_dir` is recorded and exists but no
source language is known, a warning is printed and steps 3 and 4 never
run.  When that line-508 guard is false (alignment never ran, or the
experiment directory is gone), the whole step-2 block — warning
included — is skipped and steps 3 and 4 do run, but then the f-string
at line 547 reads the local `language_src`, which is only ever assigned
inside the guard (line 510): the resulting `UnboundLocalError` is
caught by the `except` clause at lines 551-553 and the function returns
`False`, after having performed steps 1, 3 and 4. -/
def apply_production_mode (is_prod : Bool) (st : ConsInput) :
    Bool × List ConsAction :=
if !is_prod then (true, [])
else if st.hasLastExperimentDir && st.lastExperimentDirExists then
  match st.detectedSrc with
  | none => (true, consStep1 st ++ [ConsAction.warnNoLanguage])
  | some _ =>
    (true, consStep1 st ++ consStep2 st ++ consStep3 st ++ consStep4 st)
else
  (false, consStep1 st ++ consStep3 st ++ consStep4 st)

/-- `self.config.get('IS_PROD', False)` (line 481) over the config
modelled as an association list of boolean keys. -/
def get_is_prod (cfg : List (String × Bool)) : Bool :=
(cfg.lookup "IS_PROD").getD false

/-- A consolidation state where alignment was never run: the
`last_experiment_dir` attribute is absent, while the merged chunk file,
the experiments directory and two per-language subdirectories exist. -/
def consStateNoAlign : ConsInput :=
⟨true, false, false, none, [], fun _ => false, true, ["en", "it"]⟩

/-- A consolidation state where an experiment directory is recorded and
exists but no source language is known. -/
def consStateNoLang : ConsInput :=
⟨true, true, true, none, [], fun _ => false, true, ["en", "it"]⟩

/-- C5 counterexample: with no language information because alignment
was never run (`last_experiment_dir` recorded but the early-return guard
of lines 513-515 triggered — `detected_language_src` is unset), the
claim says step (c) (deleting the experiment tree) still executes; in
the code the function returns success immediately after the warning, so
the experiment tree survives.  (In the attribute-absent variant the
skip happens with no warning at all; see the amended theorem.) -/
theorem consolidator_no_warning_cex :
    apply_production_mode true consStateNoLang =
      (true, [ConsAction.copyChunks, ConsAction.warnNoLanguage]) ∧
    ConsAction.removeExperimentsDir ∉ (apply_production_mode true consStateNoLang).2 := by
constructor
· rfl
· decide

/-- C5 amended: when no experiment directory is recorded (alignment
never ran) or the recorded one no longer exists, step (b) is skipped
silently — without any warning — and steps (a), (c) and (d) still
execute, but consolidation then reports failure: the f-string at line
547 reads the unbound local `language_src` and the caught
`UnboundLocalError` makes `apply_production_mode` return `False` (which
the orchestrator in turn reports only as a warning).  The
'no language information' warning appears only on the distinct path
where an experiment directory is recorded and exists but no source
language is known; that path returns success immediately after step
(a), skipping steps (c) and (d). -/
theorem consolidator_no_language_amended (st : ConsInput) :
    ((st.hasLastExperimentDir && st.lastExperimentDirExists) = false →
      apply_production_mode true st =
        (false, consStep1 st ++ consStep3 st ++ consStep4 st) ∧
      ConsAction.warnNoLanguage ∉ (apply_production_mode true st).2) ∧
    (st.hasLastExperimentDir = true → st.lastExperimentDirExists = true →
      st.detectedSrc = none →
      apply_production_mode true st =
        (true, consStep1 st ++ [ConsAction.warnNoLanguage]) ∧
      ConsAction.removeExperimentsDir ∉ (apply_production_mode true st).2) := by
refine ⟨?_, ?_⟩
· intro h
  have htr : apply_production_mode true st =
      (false, consStep1 st ++ consStep3 st ++ consStep4 st) := by
    simp [apply_production_mode, h]
  refine ⟨htr, ?_⟩
  rw [htr]
  intro hmem
  rcases List.mem_append.mp hmem with hm | hm
  · rcases List.mem_append.mp hm with hm2 | hm2
    · rw [consStep1] at hm2
      split at hm2 <;> simp at hm2
    · rw [consStep3] at hm2
      split at hm2 <;> simp at hm2
  · rw [consStep4] at hm
    simp at hm
· intro h1 h2 h3
  have htr : apply_production_mode true st =
      (true, consStep1 st ++ [ConsAction.warnNoLanguage]) := by
    simp [apply_production_mode, h1, h2, h3]
  refine ⟨htr, ?_⟩
  rw [htr]
  intro hmem
  rcases List.mem_append.mp hmem with hm | hm
  · rw [consStep1] at hm
    split at hm <;> simp at hm
  · simp at hm

/-- C5 amended witness: both concrete paths, through the theorem. -/
theorem consolidator_no_language_amended_witness :
    (apply_production_mode true consStateNoAlign =
      (false, consStep1 consStateNoAlign ++ consStep3 consStateNoAlign ++
        consStep4 consStateNoAlign) ∧
     ConsAction.warnNoLanguage ∉ (apply_production_mode true consStateNoAlign).2) ∧
    (apply_production_mode true consStateNoLang =
      (true, consStep1 consStateNoLang ++ [ConsAction.warnNoLanguage]) ∧
     ConsAction.removeExperimentsDir ∉
       (apply_production_mode true consStateNoLang).2) :=
⟨(consolidator_no_language_amended consStateNoAlign).1 rfl,
 (consolidator_no_language_amended consStateNoLang).2 rfl rfl rfl⟩

/-- C10: when `IS_PROD` is false, or absent from the configuration (in
which case `config.get('IS_PROD', False)` yields false), consolidation
returns success and performs no filesystem action at all. -/
theorem is_prod_false_no_actions :
    (∀ st : ConsInput, apply_production_mode false st = (true, [])) ∧
    (∀ cfg : List (String × Bool), cfg.lookup "IS_PROD" = none →
      get_is_prod cfg = false) ∧
    get_is_prod [("IS_PROD", false)] = false := by
refine ⟨fun st => rfl, ?_, rfl⟩
intro cfg h
rw [get_is_prod, h]
rfl

/-- C10 witness: a concrete state and the empty configuration. -/
theorem is_prod_false_no_actions_witness :
    apply_production_mode false consStateNoAlign = (true, []) ∧
    get_is_prod [] = false :=
⟨is_prod_false_no_actions.1 consStateNoAlign,
 is_prod_false_no_actions.2.1 [] rfl⟩

/-! ## PipelineOrchestrator (`run_full_pipeline`, lines 555-597) -/

/-- `run_full_pipeline` (lines 574-597) with the four stages' boolean
outcomes abstracted as parameters: PDF conversion runs unless skipped
and a failure returns `False` at once; a merge failure returns `False`;
the alignment stage runs only when requested and its failure returns
`False`; the consolidation outcome (`consOk`) is only warned about
(lines 592-594) and never affects the result. -/
def run_full_pipeline (skip_pdf_conversion run_alignment : Bool)
    (pdfOk mergeOk alignOk consOk : Bool) : Bool :=
if !skip_pdf_conversion && !pdfOk then false
else if !mergeOk then false
else if run_alignment && !alignOk then false
else true

/-- C8: the orchestrator's overall result equals: (PDF conversion passed
or was skipped) and merge passed and (alignment passed or was not
requested) — so PDF_CONVERT and MERGE failures are fatal, an ALIGN
failure is fatal exactly when alignment was requested, and the
CONSOLIDATE outcome never changes the overall (successful) result. -/
theorem orchestrator_failure_policy
    (skip_pdf run_align pdfOk mergeOk alignOk consOk : Bool) :
    run_full_pipeline skip_pdf run_align pdfOk mergeOk alignOk consOk =
      ((skip_pdf || pdfOk) && (mergeOk && (!run_align || alignOk))) ∧
    run_full_pipeline skip_pdf run_align pdfOk mergeOk alignOk false =
      run_full_pipeline skip_pdf run_align pdfOk mergeOk alignOk true := by
cases skip_pdf <;> cases run_align <;> cases pdfOk <;> cases mergeOk <;>
  cases alignOk <;> cases consOk <;> exact ⟨rfl, rfl⟩

end Vinculum
